import Mathlib

set_option maxRecDepth 8192

/-!
Shallow embedding of the Chinese-PDF OCR correction service
(`pdf_repair_service.py`).

Python strings are modelled as `List Char`; the mutable service object is
modelled as explicit state passing of its single mutable field
`previous_summary`; Python exceptions are modelled with `Except Err`.
The two LLM collaborators (the correction runnable and the summarization
runnable) and the OCR front end are external network calls, modelled as
function parameters.
-/

/-- Text is modelled as a list of characters (a Python `str`). -/
abbrev Chunk := List Char

/-- Errors raised by the service or one of its collaborators. -/
inductive Err where
  | correctionFailed
  | summarizationFailed
  | ocrFailed
  | popplerMissing
  | llmInitFailed
  deriving DecidableEq

/-- The state of a `PDFRepairService` instance: its single mutable field,
the rolling context summary `self.previous_summary`. -/
structure Service where
  previous_summary : Chunk
  deriving DecidableEq

/-- A correction-model collaborator: receives the text chunk and the context
string, returns corrected text or fails. -/
abbrev CorrectFn := Chunk → Chunk → Except Err Chunk

/-- A summarization-model collaborator: receives corrected text, returns a
summary or fails. -/
abbrev SummFn := Chunk → Except Err Chunk

/-- Line 167: `new_summary[:200] if len(new_summary) > 200 else new_summary`. -/
def truncSummary (new_summary : Chunk) : Chunk :=
  if new_summary.length > 200 then new_summary.take 200 else new_summary

/-- `PDFRepairService.correct_text_with_runnables` (lines 142-172): invoke the
correction model on (chunk, context); on success invoke the summarization
model on the corrected text and store its 200-character truncation in
`self.previous_summary`; any failure propagates. -/
def correct_text_with_runnables (cm : CorrectFn) (sm : SummFn) (_s : Service)
    (text_chunk context : Chunk) : Except Err (Chunk × Service) :=
  match cm text_chunk context with
  | .error e => .error e
  | .ok corrected_text =>
    match sm corrected_text with
    | .error e => .error e
    | .ok new_summary => .ok (corrected_text, ⟨truncSummary new_summary⟩)

/-- Modelled from the spec: the chunker contract of section 4.1. The actual
splitter is the third-party `RecursiveCharacterTextSplitter` (line 188),
whose code is not part of this repository; the spec describes it as
producing an ordered sequence of chunks bounded by the chunk size, with
consecutive chunks overlapping by the overlap size, covering every
character, one chunk for short inputs. This is a sliding window that
advances by (chunk size - overlap) and is driven by a fuel argument (one
unit per emitted chunk; the remaining text shrinks by at least one
character per step, so `text.length` units suffice). -/
def slidingChunksGo (chunk_size chunk_overlap : Nat) : Nat → Chunk → List Chunk
  | 0, text => [text]
  | fuel + 1, text =>
    if text.length ≤ chunk_size ∨ chunk_size ≤ chunk_overlap then [text]
    else
      text.take chunk_size ::
        slidingChunksGo chunk_size chunk_overlap fuel
          (text.drop (chunk_size - chunk_overlap))

/-- Modelled from the spec: the chunker, with fuel instantiated. -/
def slidingChunks (chunk_size chunk_overlap : Nat) (text : Chunk) : List Chunk :=
  slidingChunksGo chunk_size chunk_overlap text.length text

/-- The correction loop of `split_and_correct_text_with_runnables`
(lines 195-199): `context = self.previous_summary if i > 0 else ""`, then
correct each chunk in order, stopping at the first failure. Instrumented
with the trace of (chunk, context) pairs passed to the correction model,
returned as the first component. -/
def splitCorrectAux (cm : CorrectFn) (sm : SummFn) :
    Service → Nat → List Chunk → List (Chunk × Chunk) × Except Err (List Chunk × Service)
  | s, _, [] => ([], .ok ([], s))
  | s, i, chunk :: rest =>
    let context := if i > 0 then s.previous_summary else []
    match correct_text_with_runnables cm sm s chunk context with
    | .error e => ([(chunk, context)], .error e)
    | .ok (corrected_chunk, s') =>
      let r := splitCorrectAux cm sm s' (i + 1) rest
      ((chunk, context) :: r.1,
        match r.2 with
        | .error e => .error e
        | .ok (ccs, s'') => .ok (corrected_chunk :: ccs, s''))

/-- `PDFRepairService.split_and_correct_text_with_runnables` (lines 174-205):
split the text into chunks and run the correction loop. -/
def split_and_correct_text_with_runnables (cm : CorrectFn) (sm : SummFn)
    (s : Service) (text : Chunk) (chunk_size chunk_overlap : Nat) :
    List (Chunk × Chunk) × Except Err (List Chunk × Service) :=
  splitCorrectAux cm sm s 0 (slidingChunks chunk_size chunk_overlap text)

/-- `PDFRepairService.reassemble_text` (lines 207-234):
`final_text = "".join(corrected_chunks)`, then
`if original_text_length and len(final_text) != original_text_length:`
truncate or pad with spaces.  Note that Python truthiness makes a supplied
target length of `0` skip the adjustment, hence the `n ≠ 0` conjunct. -/
def reassemble_text (corrected_chunks : List Chunk)
    (original_text_length : Option Nat) : Chunk :=
  let final_text := corrected_chunks.flatten
  match original_text_length with
  | none => final_text
  | some n =>
    if n ≠ 0 ∧ final_text.length ≠ n then
      if final_text.length > n then final_text.take n
      else final_text ++ List.replicate (n - final_text.length) ' '
    else final_text

/-- `PDFRepairService.process_pdf` (lines 236-265): extract text via OCR
(modelled as an `Except`-valued input), record its length, reset
`self.previous_summary` to the empty string, run the correction loop with
the default sizes 2000/200, reassemble against the original length. The
initial service state `_s` is ignored exactly because of the reset on
line 253. Returns the correction-call trace together with the result
(final text and final service state). -/
def process_pdf (cm : CorrectFn) (sm : SummFn) (_s : Service)
    (ocr : Except Err Chunk) :
    List (Chunk × Chunk) × Except Err (Chunk × Service) :=
  match ocr with
  | .error e => ([], .error e)
  | .ok extracted_text =>
    let original_length := extracted_text.length
    let r := split_and_correct_text_with_runnables cm sm ⟨[]⟩ extracted_text 2000 200
    (r.1,
      match r.2 with
      | .error e => .error e
      | .ok (ccs, s') => .ok (reassemble_text ccs (some original_length), s'))

/-- `PDFRepairService._check_poppler_installation` (lines 61-75): run a
version probe of the rasterizing tool; raise if the probe fails. The probe
is an external subprocess call, modelled as a boolean outcome. -/
def check_poppler_installation (probeOk : Bool) : Except Err Unit :=
  if probeOk then .ok () else .error .popplerMissing

/-- `PDFRepairService.__init__` (lines 27-59): initialize the LLM client
(failure propagates), then check the rasterizing tool, then set
`previous_summary = ""`. -/
def initService (llmInit : Except Err Unit) (probeOk : Bool) :
    Except Err Service :=
  match llmInit with
  | .error e => .error e
  | .ok _ =>
    match check_poppler_installation probeOk with
    | .error e => .error e
    | .ok _ => .ok ⟨[]⟩

/-- Specification-side description of the correction-call trace of one
document: the (chunk, context) pairs issued over a chunk list, starting
from a given context, computed from the chunk list alone (no service
state). Used to compare against the trace produced by the embedded code. -/
def specCalls (cm : CorrectFn) (sm : SummFn) (ctx : Chunk) :
    List Chunk → List (Chunk × Chunk)
  | [] => []
  | c :: rest =>
    (c, ctx) ::
      match cm c ctx with
      | .error _ => []
      | .ok t =>
        match sm t with
        | .error _ => []
        | .ok summ => specCalls cm sm (truncSummary summ) rest

/-- Whether a single correction-plus-summarization step on the pair
(chunk, context) fails, and with which error. -/
def callError (cm : CorrectFn) (sm : SummFn) (p : Chunk × Chunk) : Option Err :=
  match cm p.1 p.2 with
  | .error e => some e
  | .ok t =>
    match sm t with
    | .error e => some e
    | .ok _ => none

/-- Modelled from the spec: splicing a chunk into the buffer at a cursor
position, letting the chunk overwrite what lies at and beyond the cursor
(section 4.3, overlap-splice policy; this policy is described as a
historical variant and is absent from the current source). -/
def spliceAt (buf : Chunk) (pos : Nat) (chunk : Chunk) : Chunk :=
  buf.take pos ++ chunk

/-- Modelled from the spec: the overlap-splice reassembly loop, walking a
cursor forward by (chunk length - overlap length) per chunk. -/
def overlapSpliceAux (ov : Nat) (buf : Chunk) (cursor : Nat) :
    List Chunk → Chunk
  | [] => buf
  | c :: rest =>
    overlapSpliceAux ov (spliceAt buf cursor c) (cursor + (c.length - ov)) rest

/-- Modelled from the spec: overlap-splice reassembly of a chunk list. -/
def overlapSplice (ov : Nat) (chunks : List Chunk) : Chunk :=
  overlapSpliceAux ov [] 0 chunks

/-- A correction model that returns its input unchanged (for witnesses). -/
def cmId : CorrectFn := fun c _ => .ok c

/-- A summarization model that returns its input unchanged (for witnesses). -/
def smId : SummFn := fun t => .ok t

/-- A correction model that always fails (for witnesses). -/
def cmFail : CorrectFn := fun _ _ => .error .correctionFailed

/-- A summarization model that returns a 300-character summary (for
witnesses). -/
def smLong : SummFn := fun _ => .ok (List.replicate 300 'x')

/-- C3: when no target length is supplied, `reassemble_text` returns exactly
the ordered left-to-right join of the corrected chunks: no chunk dropped,
duplicated, reordered or altered, and no de-overlap logic applied. -/
theorem reassemble_none_is_join (chunks : List Chunk) :
    reassemble_text chunks none = chunks.flatten := rfl

/-- C4: reassembling the chunks ["ABC","CDE","EFG"] under the overlap-splice
policy with overlap length 1 yields "ABCDEFG": the cursor advances by
(chunk length minus overlap) per chunk and each chunk is spliced in at the
cursor, overwriting the overlapping tail. -/
theorem overlap_splice_example :
    overlapSplice 1 [['A', 'B', 'C'], ['C', 'D', 'E'], ['E', 'F', 'G']] =
      ['A', 'B', 'C', 'D', 'E', 'F', 'G'] := by decide

/-- C1 counterexample: with a supplied target length of 0 and a non-empty
chunk, `reassemble_text` does not return a string of the target length,
because the Python truthiness test `if original_text_length and ...` skips
the adjustment when the target length is 0. -/
theorem reassemble_zero_target_counterexample :
    (reassemble_text [['A']] (some 0)).length ≠ 0 := by decide

/-- C1 (amended): for every list of corrected chunks and every supplied
positive target length, `reassemble_text` returns a string whose length
equals the target, obtained from the plain concatenation of the chunks by
truncation only or by appending trailing spaces only. -/
theorem reassemble_matches_positive_target (chunks : List Chunk) (n : Nat)
    (h : 0 < n) :
    (reassemble_text chunks (some n)).length = n ∧
    (reassemble_text chunks (some n) = chunks.flatten.take n ∨
      reassemble_text chunks (some n) =
        chunks.flatten ++ List.replicate (n - chunks.flatten.length) ' ') := by
  have hn : n ≠ 0 := Nat.pos_iff_ne_zero.mp h
  simp only [reassemble_text]
  by_cases hlen : chunks.flatten.length = n
  · rw [if_neg (by simp [hlen])]
    refine ⟨hlen, Or.inl ?_⟩
    rw [← hlen, List.take_length]
  · rw [if_pos ⟨hn, hlen⟩]
    by_cases hgt : chunks.flatten.length > n
    · rw [if_pos hgt]
      exact ⟨by rw [List.length_take]; exact Nat.min_eq_left (Nat.le_of_lt hgt),
        Or.inl rfl⟩
    · rw [if_neg hgt]
      refine ⟨?_, Or.inr rfl⟩
      rw [List.length_append, List.length_replicate]
      exact Nat.add_sub_cancel' (Nat.le_of_not_lt hgt)

/-- C1 witness: the amended theorem applied at chunks [["A"]] and target 3. -/
theorem reassemble_matches_positive_target_witness :
    (reassemble_text [['A']] (some 3)).length = 3 ∧
    (reassemble_text [['A']] (some 3) = ([['A']] : List Chunk).flatten.take 3 ∨
      reassemble_text [['A']] (some 3) =
        ([['A']] : List Chunk).flatten ++
          List.replicate (3 - ([['A']] : List Chunk).flatten.length) ' ') :=
  reassemble_matches_positive_target [['A']] 3 (by decide)

/-- C6: every input text strictly shorter than the chunk size yields exactly
one chunk, equal to the input. -/
theorem chunker_short_input (chunk_size chunk_overlap : Nat) (text : Chunk)
    (h : text.length < chunk_size) :
    slidingChunks chunk_size chunk_overlap text = [text] := by
  unfold slidingChunks
  cases hl : text.length with
  | zero => rfl
  | succ m => simp [slidingChunksGo, Or.inl h.le]

/-- C6 witness: a two-character text with chunk size 5. -/
theorem chunker_short_input_witness :
    slidingChunks 5 1 ['a', 'b'] = [['a', 'b']] :=
  chunker_short_input 5 1 ['a', 'b'] (by decide)

/-- Helper for C5: the fuel-driven sliding window covers every character of
its input, for any fuel. -/
theorem slidingChunksGo_covers (cs ov fuel : Nat) :
    ∀ (text : Chunk) (x : Char), x ∈ text →
      ∃ c ∈ slidingChunksGo cs ov fuel text, x ∈ c := by
  induction fuel with
  | zero =>
    intro text x hx
    exact ⟨text, by simp [slidingChunksGo], hx⟩
  | succ n ih =>
    intro text x hx
    by_cases hif : text.length ≤ cs ∨ cs ≤ ov
    · exact ⟨text, by simp [slidingChunksGo, hif], hx⟩
    · have hsplit : x ∈ text.take (cs - ov) ++ text.drop (cs - ov) := by
        rw [List.take_append_drop]; exact hx
      rcases List.mem_append.mp hsplit with hmem | hmem
      · refine ⟨text.take cs, by simp [slidingChunksGo, hif], ?_⟩
        have heq : text.take (cs - ov) = (text.take cs).take (cs - ov) := by
          rw [List.take_take, Nat.min_eq_left (Nat.sub_le cs ov)]
        exact List.take_subset _ _ (heq ▸ hmem)
      · rcases ih (text.drop (cs - ov)) x hmem with ⟨c, hc, hxc⟩
        refine ⟨c, ?_, hxc⟩
        simp only [slidingChunksGo, if_neg hif, List.mem_cons]
        exact Or.inr hc

/-- C5: for every input text, the chunks produced by the chunker cover every
character of the input at least once: no character of the input is absent
from all chunks. -/
theorem chunker_covers (chunk_size chunk_overlap : Nat) (text : Chunk)
    (x : Char) (hx : x ∈ text) :
    ∃ c ∈ slidingChunks chunk_size chunk_overlap text, x ∈ c :=
  slidingChunksGo_covers chunk_size chunk_overlap text.length text x hx

/-- C5 witness: the character 'a' of the text "ab" is covered. -/
theorem chunker_covers_witness :
    ∃ c ∈ slidingChunks 3 1 ['a', 'b'], 'a' ∈ c :=
  chunker_covers 3 1 ['a', 'b'] 'a' (by decide)

/-- Helper: the truncated summary never exceeds 200 characters. -/
theorem truncSummary_length_le (l : Chunk) : (truncSummary l).length ≤ 200 := by
  unfold truncSummary
  by_cases hl : l.length > 200
  · rw [if_pos hl, List.length_take]
    exact Nat.min_le_left 200 l.length
  · rw [if_neg hl]
    exact Nat.le_of_not_lt hl

/-- C7: after every completed (non-failing) call to
`correct_text_with_runnables`, the stored rolling summary has length at
most 200 characters, regardless of the length of the summary returned by
the summarization model. -/
theorem summary_bounded_after_correction (cm : CorrectFn) (sm : SummFn)
    (s : Service) (c ctx t : Chunk) (s' : Service)
    (h : correct_text_with_runnables cm sm s c ctx = .ok (t, s')) :
    s'.previous_summary.length ≤ 200 := by
  unfold correct_text_with_runnables at h
  split at h
  · exact absurd h (by simp)
  · split at h
    · exact absurd h (by simp)
    · simp only [Except.ok.injEq, Prod.mk.injEq] at h
      rw [← h.2]
      exact truncSummary_length_le _

/-- C7 witness: a summarization model returning a 300-character summary
still leaves a stored summary of length at most 200. -/
theorem summary_bounded_after_correction_witness :
    (Service.mk ((List.replicate 300 'x').take 200)).previous_summary.length ≤ 200 :=
  summary_bounded_after_correction cmId smLong ⟨[]⟩ ['a'] [] ['a']
    ⟨(List.replicate 300 'x').take 200⟩ rfl

/-- C9: if the rasterizing tool's version probe fails, service
initialization returns an error (never a service instance), so no document
can be processed: whatever the LLM-client initialization outcome, the
constructor fails. -/
theorem poppler_probe_failure_blocks_init (llmInit : Except Err Unit) :
    ∃ e : Err, initService llmInit false = .error e := by
  cases llmInit with
  | error e => exact ⟨e, rfl⟩
  | ok u => exact ⟨.popplerMissing, rfl⟩

/-- Helper: from any strictly positive index, the correction-call trace of
the loop equals the specification-side trace started from the stored
summary (at positive indices the loop passes `self.previous_summary`). -/
theorem splitCorrectAux_trace_pos (cm : CorrectFn) (sm : SummFn)
    (chunks : List Chunk) :
    ∀ (s : Service) (i : Nat), 0 < i →
      (splitCorrectAux cm sm s i chunks).1 =
        specCalls cm sm s.previous_summary chunks := by
  induction chunks with
  | nil => intro s i hi; rfl
  | cons c rest ih =>
    intro s i hi
    cases hcm : cm c s.previous_summary with
    | error e =>
      simp [splitCorrectAux, specCalls, correct_text_with_runnables, hi, hcm]
    | ok t =>
      cases hsm : sm t with
      | error e =>
        simp [splitCorrectAux, specCalls, correct_text_with_runnables, hi,
          hcm, hsm]
      | ok summ =>
        simp only [splitCorrectAux, correct_text_with_runnables, hi, if_pos,
          specCalls, hcm, hsm]
        exact congrArg (List.cons (c, s.previous_summary))
          (ih ⟨truncSummary summ⟩ (i + 1) (Nat.succ_pos i))

/-- Helper: from index 0 the trace equals the specification-side trace with
the empty initial context, whatever the stored summary is. -/
theorem splitCorrectAux_trace_zero (cm : CorrectFn) (sm : SummFn)
    (s : Service) (chunks : List Chunk) :
    (splitCorrectAux cm sm s 0 chunks).1 = specCalls cm sm [] chunks := by
  cases chunks with
  | nil => rfl
  | cons c rest =>
    cases hcm : cm c [] with
    | error e =>
      simp [splitCorrectAux, specCalls, correct_text_with_runnables, hcm]
    | ok t =>
      cases hsm : sm t with
      | error e =>
        simp [splitCorrectAux, specCalls, correct_text_with_runnables,
          hcm, hsm]
      | ok summ =>
        simp [splitCorrectAux, specCalls, correct_text_with_runnables,
          hcm, hsm]
        exact splitCorrectAux_trace_pos cm sm rest ⟨truncSummary summ⟩ 1
          Nat.one_pos

/-- C2: the rolling context is reset to the empty string at the start of
each document: the correction-call trace of `process_pdf` (every chunk and
the context it receives) equals the specification-side trace computed from
this document's chunks alone, starting from the empty context, and the
whole run is independent of the service state left behind by any previous
document. -/
theorem process_pdf_context_isolated (cm : CorrectFn) (sm : SummFn)
    (s₁ s₂ : Service) (ext : Chunk) :
    (process_pdf cm sm s₁ (.ok ext)).1 =
      specCalls cm sm [] (slidingChunks 2000 200 ext) ∧
    process_pdf cm sm s₁ (.ok ext) = process_pdf cm sm s₂ (.ok ext) := by
  refine ⟨?_, rfl⟩
  show (splitCorrectAux cm sm ⟨[]⟩ 0 (slidingChunks 2000 200 ext)).1 = _
  exact splitCorrectAux_trace_zero cm sm ⟨[]⟩ _

/-- C10: in every call to `split_and_correct_text_with_runnables`, the first
chunk is corrected with the empty context string regardless of the stored
`previous_summary`, while a chunk processed at any index greater than 0
receives the stored summary as context. -/
theorem first_chunk_empty_context (cm : CorrectFn) (sm : SummFn)
    (s : Service) (text : Chunk) (cs ov : Nat) :
    (∃ c : Chunk, (slidingChunks cs ov text).head? = some c ∧
        (split_and_correct_text_with_runnables cm sm s text cs ov).1.head? =
          some (c, [])) ∧
    ∀ (c : Chunk) (rest : List Chunk) (i : Nat), 0 < i →
      (splitCorrectAux cm sm s i (c :: rest)).1.head? =
        some (c, s.previous_summary) := by
  constructor
  · obtain ⟨c, rest, hc⟩ : ∃ c rest, slidingChunks cs ov text = c :: rest := by
      unfold slidingChunks
      cases text.length with
      | zero => exact ⟨text, [], rfl⟩
      | succ m =>
        unfold slidingChunksGo
        by_cases hif : text.length ≤ cs ∨ cs ≤ ov
        · rw [if_pos hif]; exact ⟨text, [], rfl⟩
        · rw [if_neg hif]; exact ⟨_, _, rfl⟩
    refine ⟨c, by rw [hc]; rfl, ?_⟩
    show (splitCorrectAux cm sm s 0 (slidingChunks cs ov text)).1.head? = _
    rw [hc]
    cases hr : correct_text_with_runnables cm sm s c [] with
    | error e => simp [splitCorrectAux, hr]
    | ok p =>
      obtain ⟨cc, s'⟩ := p
      simp [splitCorrectAux, hr]
  · intro c rest i hi
    cases hr : correct_text_with_runnables cm sm s c s.previous_summary with
    | error e => simp [splitCorrectAux, hr, hi]
    | ok p =>
      obtain ⟨cc, s'⟩ := p
      simp [splitCorrectAux, hr, hi]

/-- C10 witness: with a stored summary "z", a chunk processed at index 1
receives "z" as context. -/
theorem first_chunk_empty_context_witness :
    (splitCorrectAux cmId smId ⟨['z']⟩ 1 [['a']]).1.head? = some (['a'], ['z']) :=
  (first_chunk_empty_context cmId smId ⟨['z']⟩ ['q'] 5 1).2 ['a'] [] 1 (by decide)

/-- Helper: the loop corrects each chunk at most once, in order: the chunk
components of the trace are an initial segment of the input chunk list (no
retry, no duplication, no skipping ahead). -/
theorem splitCorrectAux_no_retry (cm : CorrectFn) (sm : SummFn)
    (chunks : List Chunk) :
    ∀ (s : Service) (i : Nat),
      ((splitCorrectAux cm sm s i chunks).1.map Prod.fst) <+: chunks := by
  induction chunks with
  | nil => intro s i; exact ⟨[], rfl⟩
  | cons c rest ih =>
    intro s i
    cases hr : correct_text_with_runnables cm sm s c
        (if i > 0 then s.previous_summary else []) with
    | error e =>
      simp only [splitCorrectAux, hr, List.map_cons, List.map_nil]
      exact ⟨rest, rfl⟩
    | ok p =>
      obtain ⟨cc, s'⟩ := p
      simp only [splitCorrectAux, hr, List.map_cons]
      obtain ⟨t, ht⟩ := ih s' (i + 1)
      exact ⟨t, by rw [List.cons_append, ht]⟩

/-- Helper: if one of the traced correction-plus-summarization calls fails,
the loop's result is exactly that error. -/
theorem splitCorrectAux_failed_call (cm : CorrectFn) (sm : SummFn)
    (chunks : List Chunk) :
    ∀ (s : Service) (i : Nat) (p : Chunk × Chunk) (e : Err),
      p ∈ (splitCorrectAux cm sm s i chunks).1 →
      callError cm sm p = some e →
      (splitCorrectAux cm sm s i chunks).2 = .error e := by
  induction chunks with
  | nil =>
    intro s i p e hp he
    simp [splitCorrectAux] at hp
  | cons c rest ih =>
    intro s i p e hp he
    cases hcm : cm c (if i > 0 then s.previous_summary else []) with
    | error e' =>
      simp only [splitCorrectAux, correct_text_with_runnables, hcm,
        List.mem_singleton] at hp
      subst hp
      simp only [callError, hcm, Option.some.injEq] at he
      simp [splitCorrectAux, correct_text_with_runnables, hcm, he]
    | ok t =>
      cases hsm : sm t with
      | error e' =>
        simp only [splitCorrectAux, correct_text_with_runnables, hcm, hsm,
          List.mem_singleton] at hp
        subst hp
        simp only [callError, hcm, hsm, Option.some.injEq] at he
        simp [splitCorrectAux, correct_text_with_runnables, hcm, hsm, he]
      | ok summ =>
        simp only [splitCorrectAux, correct_text_with_runnables, hcm, hsm,
          List.mem_cons] at hp
        rcases hp with hp | hp
        · subst hp
          simp [callError, hcm, hsm] at he
        · have htail := ih ⟨truncSummary summ⟩ (i + 1) p e hp he
          simp only [splitCorrectAux, correct_text_with_runnables, hcm, hsm]
          rw [htail]

/-- C8: if any model call (correction or summarization) for any chunk of a
document fails, `process_pdf` fails for the whole document: the same error
propagates to the caller (no corrected result), and no retry is attempted
(the traced chunks are an initial segment of the chunk list, so each chunk
is corrected at most once). -/
theorem model_call_failure_aborts_document (cm : CorrectFn) (sm : SummFn)
    (s : Service) (ext : Chunk) (p : Chunk × Chunk) (e : Err)
    (hp : p ∈ (process_pdf cm sm s (.ok ext)).1)
    (he : callError cm sm p = some e) :
    (process_pdf cm sm s (.ok ext)).2 = .error e ∧
    ((process_pdf cm sm s (.ok ext)).1.map Prod.fst) <+:
      slidingChunks 2000 200 ext := by
  have h1 : (process_pdf cm sm s (.ok ext)).1 =
      (splitCorrectAux cm sm ⟨[]⟩ 0 (slidingChunks 2000 200 ext)).1 := rfl
  have hloop : (splitCorrectAux cm sm ⟨[]⟩ 0 (slidingChunks 2000 200 ext)).2 =
      .error e :=
    splitCorrectAux_failed_call cm sm _ ⟨[]⟩ 0 p e (h1 ▸ hp) he
  constructor
  · simp only [process_pdf, split_and_correct_text_with_runnables]
    rw [hloop]
  · rw [h1]
    exact splitCorrectAux_no_retry cm sm _ ⟨[]⟩ 0

/-- C8 witness: a correction model that always fails makes `process_pdf`
return that error on a one-chunk document, with the chunk corrected at most
once. -/
theorem model_call_failure_aborts_document_witness :
    (process_pdf cmFail smId ⟨[]⟩ (.ok ['a'])).2 = .error .correctionFailed ∧
    ((process_pdf cmFail smId ⟨[]⟩ (.ok ['a'])).1.map Prod.fst) <+:
      slidingChunks 2000 200 ['a'] :=
  model_call_failure_aborts_document cmFail smId ⟨[]⟩ ['a'] (['a'], [])
    .correctionFailed (by decide) (by decide)
